import Mathlib

/-!
Verification of the structural type-relation engine of the repository
(ts-tapl-syakyo): the recursive-type equality of src/rec.ts, the
polymorphic substitution and binding-map equality of src/poly.ts, and the
subtype relation exercised by src/sub.test.ts.

The embedding is shallow: each TypeScript discriminated union becomes an
inductive type, arrays of properties/parameters become a list-shaped
inductive in the same mutual family (so that all operations are plain
structural recursions), thrown exceptions become `Except.error`, and the
two potentially non-terminating recursions of src/rec.ts (`unwrapRecType`
and `typeEqSub`) take an explicit fuel argument: `none` means the fuel ran
out, and divergence of the source is rendered as returning `none` at
every fuel.
-/

namespace TsTapl

mutual
/-- Types of src/rec.ts: Boolean, Number, Func(params, retType),
Object(props), Rec(name, type), TypeVar(name). -/
inductive RecTy : Type where
  | Boolean : RecTy
  | Number : RecTy
  | Func : RProps → RecTy → RecTy
  | Object : RProps → RecTy
  | Rec : String → RecTy → RecTy
  | TypeVar : String → RecTy

/-- Shape of the `params` and `props` arrays of src/rec.ts: a list of
name/type pairs. -/
inductive RProps : Type where
  | nil : RProps
  | cons : String → RecTy → RProps → RProps
end

/-- Length of a property/parameter array. -/
def plength : RProps → Nat
  | .nil => 0
  | .cons _ _ rest => plength rest + 1

/-- The `type1.props.find((prop) => prop.name === prop2.name)` lookup of
src/rec.ts: first property with the given name, if any. -/
def findProp : RProps → String → Option RecTy
  | .nil, _ => none
  | .cons n t rest, name => if n = name then some t else findProp rest name

/-- Binding maps (`TypeVarNameMap` of src/rec.ts, `TypeVarMap` of
src/poly.ts): the TS object `{ ...m, [x]: y }` is modelled as cons onto an
association list, looked up front-first so the newest binding shadows. -/
abbrev VarMap := List (String × String)

/-- Lookup in a binding map: `m[x]`, `none` when the key is absent. -/
def lookupVar (m : VarMap) (x : String) : Option String :=
  match m with
  | [] => none
  | (k, v) :: rest => if k = x then some v else lookupVar rest x

/-- Discriminator for the `Boolean` tag. -/
def isBooleanTy : RecTy → Bool
  | .Boolean => true
  | _ => false

/-- Discriminator for the `Number` tag. -/
def isNumberTy : RecTy → Bool
  | .Number => true
  | _ => false

/-- Discriminator for the `Rec` tag. -/
def isRecTy : RecTy → Bool
  | .Rec _ _ => true
  | _ => false

mutual
/-- The `expandType` of src/rec.ts lines 67-104: substitute `repType` for
every free occurrence of `TypeVar typeVarName`, leaving a `Rec` binder of
the same name (and everything under it) untouched. -/
def expandType : RecTy → String → RecTy → RecTy
  | .Boolean, _, _ => .Boolean
  | .Number, _, _ => .Number
  | .Func ps ret, v, rep => .Func (expandProps ps v rep) (expandType ret v rep)
  | .Object ps, v, rep => .Object (expandProps ps v rep)
  | .Rec x body, v, rep =>
      if x = v then .Rec x body else .Rec x (expandType body v rep)
  | .TypeVar n, v, rep => if n = v then rep else .TypeVar n

/-- Property-array part of `expandType`. -/
def expandProps : RProps → String → RecTy → RProps
  | .nil, _, _ => .nil
  | .cons n t rest, v, rep => .cons n (expandType t v rep) (expandProps rest v rep)
end

/-- The `unwrapRecType` of src/rec.ts lines 106-113, with fuel: while the
type is a `Rec`, substitute the whole node for its bound name in its body
and continue. `none` renders the source recursing without reaching a
result within the given fuel. -/
def unwrapRecType : Nat → RecTy → Option RecTy
  | 0, _ => none
  | fuel + 1, .Rec x body => unwrapRecType fuel (expandType body x (.Rec x body))
  | _ + 1, .Boolean => some .Boolean
  | _ + 1, .Number => some .Number
  | _ + 1, .Func ps ret => some (.Func ps ret)
  | _ + 1, .Object ps => some (.Object ps)
  | _ + 1, .TypeVar n => some (.TypeVar n)

mutual
/-- The `typeEqNaive` of src/rec.ts lines 117-183 (the spec's Operation A):
structural equality dispatched on the second type's tag, relating bound
names of `Rec` binders through the binding map; a `TypeVar` on the left
whose name has no entry throws (`Except.error`). -/
def typeEqNaive : RecTy → RecTy → VarMap → Except String Bool
  | t1, .Boolean, _ => .ok (isBooleanTy t1)
  | t1, .Number, _ => .ok (isNumberTy t1)
  | t1, .Func ps2 r2, m =>
      match t1 with
      | .Func ps1 r1 =>
          if plength ps1 = plength ps2 then
            match typeEqNaiveParams ps1 ps2 m with
            | .error e => .error e
            | .ok false => .ok false
            | .ok true => typeEqNaive r1 r2 m
          else .ok false
      | _ => .ok false
  | t1, .Object ps2, m =>
      match t1 with
      | .Object ps1 =>
          if plength ps1 = plength ps2 then typeEqNaiveProps ps1 ps2 m
          else .ok false
      | _ => .ok false
  | t1, .Rec y b2, m =>
      match t1 with
      | .Rec x b1 => typeEqNaive b1 b2 ((x, y) :: m)
      | _ => .ok false
  | t1, .TypeVar n2, m =>
      match t1 with
      | .TypeVar n1 =>
          match lookupVar m n1 with
          | none => .error ("unknown type variable: " ++ n1)
          | some v => .ok (v = n2)
      | _ => .ok false

/-- Parameter loop of `typeEqNaive`'s Func case (lengths already equal). -/
def typeEqNaiveParams : RProps → RProps → VarMap → Except String Bool
  | .cons _ t1 r1, .cons _ t2 r2, m =>
      match typeEqNaive t1 t2 m with
      | .error e => .error e
      | .ok false => .ok false
      | .ok true => typeEqNaiveParams r1 r2 m
  | _, _, _ => .ok true

/-- Property loop of `typeEqNaive`'s Object case: every property of the
second object must be found by name in the first, with equal type. -/
def typeEqNaiveProps : RProps → RProps → VarMap → Except String Bool
  | _, .nil, _ => .ok true
  | ps1, .cons n t2 rest, m =>
      match findProp ps1 n with
      | none => .ok false
      | some t1 =>
          match typeEqNaive t1 t2 m with
          | .error e => .error e
          | .ok false => .ok false
          | .ok true => typeEqNaiveProps ps1 rest m
end

/-- The `hasSeen` of src/rec.ts lines 187-197: does some already-seen pair
match the current pair componentwise under `typeEqNaive` with the empty
binding map? The `&&` of the source short-circuits, so the second
comparison runs only when the first returned true. -/
def hasSeen (t1 t2 : RecTy) : List (RecTy × RecTy) → Except String Bool
  | [] => .ok false
  | (s1, s2) :: rest =>
      match typeEqNaive s1 t1 [] with
      | .error e => .error e
      | .ok false => hasSeen t1 t2 rest
      | .ok true =>
          match typeEqNaive s2 t2 [] with
          | .error e => .error e
          | .ok false => hasSeen t1 t2 rest
          | .ok true => .ok true

/-- One step of the loop over two parameter arrays inside `typeEqSub`
(src/rec.ts lines 228-232), abstracted over the comparison used on each
pair so that the fuel of `typeEqSub` threads through unchanged. -/
def subLoopParams (f : RecTy → RecTy → Option (Except String Bool)) :
    RProps → RProps → Option (Except String Bool)
  | .cons _ t1 r1, .cons _ t2 r2 =>
      match f t1 t2 with
      | none => none
      | some (.error e) => some (.error e)
      | some (.ok false) => some (.ok false)
      | some (.ok true) => subLoopParams f r1 r2
  | _, _ => some (.ok true)

/-- The loop over the second object's properties inside `typeEqSub`
(src/rec.ts lines 245-253): each must be found by name in the first
object's properties and compare equal. -/
def subLoopProps (f : RecTy → RecTy → Option (Except String Bool))
    (ps1 : RProps) : RProps → Option (Except String Bool)
  | .nil => some (.ok true)
  | .cons n t2 rest =>
      match findProp ps1 n with
      | none => some (.ok false)
      | some t1 =>
          match f t1 t2 with
          | none => none
          | some (.error e) => some (.error e)
          | some (.ok false) => some (.ok false)
          | some (.ok true) => subLoopProps f ps1 rest

/-- The `typeEqSub` of src/rec.ts lines 199-263 (the spec's Operation B),
with fuel: first consult `hasSeen`; then fully unwrap a left `Rec`,
appending the current pair to `seen`; then symmetrically on the right;
once neither side is a `Rec`, compare structurally, passing the current
`seen` (not a fresh one) into every sub-comparison; a `TypeVar` at this
point is the source's `throw "unreachable"`. -/
def typeEqSub : Nat → RecTy → RecTy → List (RecTy × RecTy) →
    Option (Except String Bool)
  | 0, _, _, _ => none
  | fuel + 1, t1, t2, seen =>
      match hasSeen t1 t2 seen with
      | .error e => some (.error e)
      | .ok true => some (.ok true)
      | .ok false =>
          match t1, t2 with
          | .Rec x b, t2 =>
              match unwrapRecType (fuel + 1) (.Rec x b) with
              | none => none
              | some u => typeEqSub fuel u t2 (seen ++ [(.Rec x b, t2)])
          | t1, .Rec y b =>
              match unwrapRecType (fuel + 1) (.Rec y b) with
              | none => none
              | some u => typeEqSub fuel t1 u (seen ++ [(t1, .Rec y b)])
          | t1, .Boolean => some (.ok (isBooleanTy t1))
          | t1, .Number => some (.ok (isNumberTy t1))
          | .Func ps1 r1, .Func ps2 r2 =>
              if plength ps1 = plength ps2 then
                match subLoopParams (fun a b => typeEqSub fuel a b seen) ps1 ps2 with
                | none => none
                | some (.error e) => some (.error e)
                | some (.ok false) => some (.ok false)
                | some (.ok true) => typeEqSub fuel r1 r2 seen
              else some (.ok false)
          | _, .Func _ _ => some (.ok false)
          | .Object ps1, .Object ps2 =>
              if plength ps1 = plength ps2 then
                subLoopProps (fun a b => typeEqSub fuel a b seen) ps1 ps2
              else some (.ok false)
          | _, .Object _ => some (.ok false)
          | _, .TypeVar _ => some (.error "unreachable")

/-- The `typeEq` of src/rec.ts lines 265-267: `typeEqSub` from an empty
seen-pair list. -/
def typeEq (fuel : Nat) (t1 t2 : RecTy) : Option (Except String Bool) :=
  typeEqSub fuel t1 t2 []

mutual
/-- Types of src/poly.ts: Boolean, Number, Func(params, retType),
TypeAbs(typeParams, type), TypeVar(name). -/
inductive PolyTy : Type where
  | Boolean : PolyTy
  | Number : PolyTy
  | Func : PParams → PolyTy → PolyTy
  | TypeAbs : List String → PolyTy → PolyTy
  | TypeVar : String → PolyTy

/-- Shape of the `params` array of src/poly.ts. -/
inductive PParams : Type where
  | nil : PParams
  | cons : String → PolyTy → PParams → PParams
end

/-- Length of a poly parameter array. -/
def pplength : PParams → Nat
  | .nil => 0
  | .cons _ _ rest => pplength rest + 1

mutual
/-- The `substitute` of src/poly.ts lines 54-79: replace the type variable
`typeVarName` by `concreteType` everywhere. Note the `TypeAbs` case
(lines 68-71) substitutes into the body unconditionally: it neither stops
at a binder of the same name nor renames anything. -/
def substitute : PolyTy → String → PolyTy → PolyTy
  | .Boolean, _, _ => .Boolean
  | .Number, _, _ => .Number
  | .Func ps ret, v, c => .Func (substituteParams ps v c) (substitute ret v c)
  | .TypeAbs xs body, v, c => .TypeAbs xs (substitute body v c)
  | .TypeVar n, v, c => if n = v then c else .TypeVar n

/-- Parameter-array part of `substitute`. -/
def substituteParams : PParams → String → PolyTy → PParams
  | .nil, _, _ => .nil
  | .cons n t rest, v, c => .cons n (substitute t v c) (substituteParams rest v c)
end

/-- The binding-map extension of `typeEqRec`'s TypeAbs case (src/poly.ts
lines 119-122): assign `type2`'s i-th bound name to `type1`'s i-th bound
name, later assignments shadowing earlier ones. -/
def extendMap : List String → List String → VarMap → VarMap
  | x :: xs, y :: ys, m => extendMap xs ys ((x, y) :: m)
  | _, _, m => m

mutual
/-- The `typeEqRec` of src/poly.ts lines 83-138: equality with a renaming
map for bound type variables. In the TypeVar case (lines 125-133) the
source checks only that the map has an entry for the left variable's name
— it returns `true` without comparing the entry to the right variable's
name — and throws when the entry is missing. -/
def typeEqRec : PolyTy → PolyTy → VarMap → Except String Bool
  | t1, .Boolean, _ => .ok (match t1 with | .Boolean => true | _ => false)
  | t1, .Number, _ => .ok (match t1 with | .Number => true | _ => false)
  | t1, .Func ps2 r2, m =>
      match t1 with
      | .Func ps1 r1 =>
          if pplength ps1 = pplength ps2 then
            match typeEqRecParams ps1 ps2 m with
            | .error e => .error e
            | .ok false => .ok false
            | .ok true => typeEqRec r1 r2 m
          else .ok false
      | _ => .ok false
  | t1, .TypeAbs xs2 b2, m =>
      match t1 with
      | .TypeAbs xs1 b1 =>
          if xs1.length = xs2.length then typeEqRec b1 b2 (extendMap xs1 xs2 m)
          else .ok false
      | _ => .ok false
  | t1, .TypeVar _, m =>
      match t1 with
      | .TypeVar n1 =>
          match lookupVar m n1 with
          | none => .error ("unknown type variable: " ++ n1)
          | some _ => .ok true
      | _ => .ok false

/-- Parameter loop of `typeEqRec`'s Func case. -/
def typeEqRecParams : PParams → PParams → VarMap → Except String Bool
  | .cons _ t1 r1, .cons _ t2 r2, m =>
      match typeEqRec t1 t2 m with
      | .error e => .error e
      | .ok false => .ok false
      | .ok true => typeEqRecParams r1 r2 m
  | _, _, _ => .ok true
end

mutual
/-- Types of src/sub.ts, the subtyping chapter, as its test file
src/sub.test.ts constructs them: Boolean, Number, Func(params, retType),
Object(props). -/
inductive SubTy : Type where
  | Boolean : SubTy
  | Number : SubTy
  | Func : SParams → SubTy → SubTy
  | Object : SParams → SubTy

/-- Shape of the `params` and `props` arrays of src/sub.ts. -/
inductive SParams : Type where
  | nil : SParams
  | cons : String → SubTy → SParams → SParams
end

/-- Length of a sub parameter/property array. -/
def slength : SParams → Nat
  | .nil => 0
  | .cons _ _ rest => slength rest + 1

/-- Name lookup among sub properties, first match. -/
def findSProp : SParams → String → Option SubTy
  | .nil, _ => none
  | .cons n t rest, name => if n = name then some t else findSProp rest name

/-- Getting the found property's type is smaller than the property array,
for the termination of `subtype`. -/
theorem sizeOf_findSProp {n : String} {t : SubTy} :
    ∀ {ps : SParams}, findSProp ps n = some t → sizeOf t < sizeOf ps
  | .nil, h => by simp [findSProp] at h
  | .cons m s rest, h => by
      simp only [findSProp] at h
      by_cases hm : m = n
      · rw [if_pos hm] at h
        injection h with h
        subst h
        simp
        omega
      · rw [if_neg hm] at h
        have := sizeOf_findSProp h
        simp
        omega

mutual
/-- Modelled from the spec: the `subtype` function of src/sub.ts, whose
implementation file is not part of the repository snapshot (only
src/sub.test.ts, which imports and exercises it, is). Following spec
§4.3 Operation C: Boolean/Number are subtypes iff identical; a Func is a
subtype iff parameter counts are equal, the return type is covariantly a
subtype, and each parameter is contravariantly a subtype (`P2[i]` subtype
of `P1[i]`); an Object is a subtype iff every field of the supertype is
found by name in the subtype with a subtype field type (width subtyping:
extra fields in the subtype are allowed); all other pairings are not
subtypes. -/
def subtype (sub sup : SubTy) : Bool :=
  match sub, sup with
  | .Boolean, .Boolean => true
  | .Number, .Number => true
  | .Func ps1 r1, .Func ps2 r2 =>
      (slength ps1 == slength ps2) && subtypeParamsContra ps1 ps2 && subtype r1 r2
  | .Object ps1, .Object ps2 => subtypeProps ps1 ps2
  | _, _ => false
termination_by sizeOf sub + sizeOf sup
decreasing_by
  all_goals simp_wf
  all_goals omega

/-- Modelled from the spec: pairwise contravariant parameter check — each
parameter of the supertype (second array) must be a subtype of the
corresponding parameter of the subtype (first array). -/
def subtypeParamsContra (ps1 ps2 : SParams) : Bool :=
  match ps1, ps2 with
  | .cons _ t1 r1, .cons _ t2 r2 => subtype t2 t1 && subtypeParamsContra r1 r2
  | _, _ => true
termination_by sizeOf ps1 + sizeOf ps2
decreasing_by
  all_goals simp_wf
  all_goals omega

/-- Modelled from the spec: width subtyping of object properties — every
property of the supertype (second array) is found by name among the
subtype's properties (first array) with a subtype field type. -/
def subtypeProps (ps1 ps2 : SParams) : Bool :=
  match ps2 with
  | .nil => true
  | .cons n t2 rest =>
      (match h : findSProp ps1 n with
       | none => false
       | some t1 => subtype t1 t2) && subtypeProps ps1 rest
termination_by sizeOf ps1 + sizeOf ps2
decreasing_by
  all_goals simp_wf
  all_goals try have hlt := sizeOf_findSProp h
  all_goals omega
end

mutual
/-- Does `TypeVar v` occur free in the type (a `Rec` binder of the same
name closes it off)? -/
def occursFree : String → RecTy → Bool
  | _, .Boolean => false
  | _, .Number => false
  | v, .Func ps ret => occursFreeProps v ps || occursFree v ret
  | v, .Object ps => occursFreeProps v ps
  | v, .Rec x body => if x = v then false else occursFree v body
  | v, .TypeVar n => n == v

/-- Property-array part of `occursFree`. -/
def occursFreeProps : String → RProps → Bool
  | _, .nil => false
  | v, .cons _ t rest => occursFree v t || occursFreeProps v rest
end

mutual
/-- Is every `TypeVar` bound by an enclosing `Rec` binder among `env`?
`closedUnder [] t` is closedness of `t`. -/
def closedUnder : List String → RecTy → Bool
  | _, .Boolean => true
  | _, .Number => true
  | env, .Func ps ret => closedUnderProps env ps && closedUnder env ret
  | env, .Object ps => closedUnderProps env ps
  | env, .Rec x body => closedUnder (x :: env) body
  | env, .TypeVar n => env.contains n

/-- Property-array part of `closedUnder`. -/
def closedUnderProps : List String → RProps → Bool
  | _, .nil => true
  | env, .cons _ t rest => closedUnder env t && closedUnderProps env rest
end

/-- Closedness of a type: no unbound `TypeVar`. -/
def closedTy (t : RecTy) : Bool := closedUnder [] t

/-- Is some property of the array called `n`? -/
def hasName (ps : RProps) (n : String) : Bool := (findProp ps n).isSome

/-- Are the property names of the array pairwise distinct? -/
def distinctNames : RProps → Bool
  | .nil => true
  | .cons n _ rest => !hasName rest n && distinctNames rest

mutual
/-- The data-model invariant of spec §3 that record field names are unique
by construction, required at every `Object` node of the type. -/
def nodupTy : RecTy → Bool
  | .Boolean => true
  | .Number => true
  | .Func ps r => nodupPropsTys ps && nodupTy r
  | .Object ps => distinctNames ps && nodupPropsTys ps
  | .Rec _ b => nodupTy b
  | .TypeVar _ => true

/-- Property-array part of `nodupTy`. -/
def nodupPropsTys : RProps → Bool
  | .nil => true
  | .cons _ t rest => nodupTy t && nodupPropsTys rest
end

/-- Membership of a named property in a property array. -/
def MemProp (n : String) (t : RecTy) : RProps → Prop
  | .nil => False
  | .cons m s rest => (n = m ∧ t = s) ∨ MemProp n t rest

/-- Membership of a named property in a sub property array. -/
def MemSProp (n : String) (t : SubTy) : SParams → Prop
  | .nil => False
  | .cons m s rest => (n = m ∧ t = s) ∨ MemSProp n t rest

/-- The type at position `i` of a sub parameter array. -/
def typeAtS : SParams → Nat → Option SubTy
  | .nil, _ => none
  | .cons _ t _, 0 => some t
  | .cons _ _ rest, i + 1 => typeAtS rest i

/-- The self-referential stream type of the rec.ts tests and of spec §8:
`Recursive{boundName:"X", body:Record{num:Number, rest:Function{params:[],
ret:TypeVariable("X")}}}`. -/
def numStream : RecTy :=
  .Rec "X" (.Object (.cons "num" .Number
    (.cons "rest" (.Func .nil (.TypeVar "X")) .nil)))

/-- The same stream type with its bound name spelled `Y`. -/
def numStreamY : RecTy :=
  .Rec "Y" (.Object (.cons "num" .Number
    (.cons "rest" (.Func .nil (.TypeVar "Y")) .nil)))

/-- The closed but unguarded recursive type `µX.X`. -/
def badRec : RecTy := .Rec "X" (.TypeVar "X")

/-- Divergence of `unwrapRecType` on a type, rendered in the fuel
embedding: no amount of fuel produces a result. -/
def unwrapDiverges (t : RecTy) : Prop := ∀ fuel, unwrapRecType fuel t = none

/-- Divergence of the top-level equality on a pair of types: no amount of
fuel produces a result. -/
def typeEqDiverges (t1 t2 : RecTy) : Prop := ∀ fuel, typeEq fuel t1 t2 = none

/-- Does a `Rec` body start with a structural constructor (so that one
unfolding step leaves the `Rec` tags behind)? -/
def isStructuralHead : RecTy → Bool
  | .Boolean => true
  | .Number => true
  | .Func _ _ => true
  | .Object _ => true
  | .Rec _ _ => false
  | .TypeVar _ => false

/-- The record type `{foo: number, bar: number}` of the width-subtyping
test in src/sub.test.ts lines 134-147. -/
def objFooBar : SubTy := .Object (.cons "foo" .Number (.cons "bar" .Number .nil))

/-- The record type `{foo: number}` of the same test. -/
def objFoo : SubTy := .Object (.cons "foo" .Number .nil)

/-- The function type `(x: {foo: number, bar: boolean}) => number` of the
contravariance tests in src/sub.test.ts lines 172-190. -/
def funcWideParam : SubTy :=
  .Func (.cons "x" (.Object (.cons "foo" .Number (.cons "bar" .Boolean .nil))) .nil)
    .Number

/-- The function type `(x: {foo: number}) => number` of the same tests. -/
def funcNarrowParam : SubTy :=
  .Func (.cons "x" (.Object (.cons "foo" .Number .nil)) .nil) .Number

theorem badRec_unwrap_none : ∀ fuel, unwrapRecType fuel badRec = none := by
  intro fuel
  induction fuel with
  | zero => rfl
  | succ k ih =>
      show unwrapRecType k (expandType (.TypeVar "X") "X" badRec) = none
      simpa [expandType, badRec] using ih

theorem unwrapRecType_isRec_false :
    ∀ fuel t u, unwrapRecType fuel t = some u → isRecTy u = false := by
  intro fuel
  induction fuel with
  | zero => intro t u h; simp [unwrapRecType] at h
  | succ k ih =>
      intro t u h
      cases t with
      | Rec x b =>
          simp only [unwrapRecType] at h
          exact ih _ _ h
      | Boolean => simp only [unwrapRecType] at h; injection h with h; subst h; rfl
      | Number => simp only [unwrapRecType] at h; injection h with h; subst h; rfl
      | Func ps r => simp only [unwrapRecType] at h; injection h with h; subst h; rfl
      | Object ps => simp only [unwrapRecType] at h; injection h with h; subst h; rfl
      | TypeVar n => simp only [unwrapRecType] at h; injection h with h; subst h; rfl

theorem unwrapRecType_nonrec (fuel : Nat) (t : RecTy) (h : isRecTy t = false) :
    unwrapRecType (fuel + 1) t = some t := by
  cases t <;> simp [unwrapRecType, isRecTy] at h ⊢

theorem unwrapRecType_det :
    ∀ m k t u, unwrapRecType m t = some u →
      unwrapRecType k t = some u ∨ unwrapRecType k t = none := by
  intro m
  induction m with
  | zero => intro k t u h; simp [unwrapRecType] at h
  | succ m ih =>
      intro k t u h
      cases t with
      | Rec x b =>
          simp only [unwrapRecType] at h
          cases k with
          | zero => exact Or.inr rfl
          | succ k => simpa only [unwrapRecType] using ih k _ u h
      | Boolean =>
          simp only [unwrapRecType] at h; injection h with h; subst h
          cases k with
          | zero => exact Or.inr rfl
          | succ k => exact Or.inl rfl
      | Number =>
          simp only [unwrapRecType] at h; injection h with h; subst h
          cases k with
          | zero => exact Or.inr rfl
          | succ k => exact Or.inl rfl
      | Func ps r =>
          simp only [unwrapRecType] at h; injection h with h; subst h
          cases k with
          | zero => exact Or.inr rfl
          | succ k => exact Or.inl rfl
      | Object ps =>
          simp only [unwrapRecType] at h; injection h with h; subst h
          cases k with
          | zero => exact Or.inr rfl
          | succ k => exact Or.inl rfl
      | TypeVar n =>
          simp only [unwrapRecType] at h; injection h with h; subst h
          cases k with
          | zero => exact Or.inr rfl
          | succ k => exact Or.inl rfl

theorem findProp_expandProps :
    ∀ (ps : RProps) (n v : String) (rep : RecTy),
      findProp (expandProps ps v rep) n =
        Option.map (fun t => expandType t v rep) (findProp ps n)
  | .nil, _, _, _ => rfl
  | .cons m t rest, n, v, rep => by
      simp only [expandProps, findProp]
      by_cases hm : m = n
      · simp [hm]
      · simp [hm, findProp_expandProps rest n v rep]

theorem hasName_expandProps (ps : RProps) (n v : String) (rep : RecTy) :
    hasName (expandProps ps v rep) n = hasName ps n := by
  simp only [hasName, findProp_expandProps]
  cases findProp ps n <;> rfl

theorem distinctNames_expandProps :
    ∀ (ps : RProps) (v : String) (rep : RecTy),
      distinctNames (expandProps ps v rep) = distinctNames ps
  | .nil, _, _ => rfl
  | .cons m t rest, v, rep => by
      simp only [expandProps, distinctNames]
      rw [hasName_expandProps, distinctNames_expandProps rest v rep]

mutual
theorem nodupTy_expandType :
    ∀ (t : RecTy) (v : String) (rep : RecTy),
      nodupTy t = true → nodupTy rep = true → nodupTy (expandType t v rep) = true
  | .Boolean, _, _, _, _ => rfl
  | .Number, _, _, _, _ => rfl
  | .Func ps ret, v, rep, ht, hrep => by
      simp only [nodupTy, Bool.and_eq_true] at ht
      simp only [expandType, nodupTy, Bool.and_eq_true]
      exact ⟨nodupPropsTys_expandProps ps v rep ht.1 hrep,
        nodupTy_expandType ret v rep ht.2 hrep⟩
  | .Object ps, v, rep, ht, hrep => by
      simp only [nodupTy, Bool.and_eq_true] at ht
      simp only [expandType, nodupTy, Bool.and_eq_true]
      refine ⟨?_, nodupPropsTys_expandProps ps v rep ht.2 hrep⟩
      rw [distinctNames_expandProps]
      exact ht.1
  | .Rec x b, v, rep, ht, hrep => by
      simp only [nodupTy] at ht
      simp only [expandType]
      by_cases hx : x = v
      · simp only [if_pos hx, nodupTy]
        exact ht
      · simp only [if_neg hx, nodupTy]
        exact nodupTy_expandType b v rep ht hrep
  | .TypeVar n, v, rep, ht, hrep => by
      simp only [expandType]
      by_cases hn : n = v
      · simp only [if_pos hn]
        exact hrep
      · simp only [if_neg hn, nodupTy]

theorem nodupPropsTys_expandProps :
    ∀ (ps : RProps) (v : String) (rep : RecTy),
      nodupPropsTys ps = true → nodupTy rep = true →
        nodupPropsTys (expandProps ps v rep) = true
  | .nil, _, _, _, _ => rfl
  | .cons n t rest, v, rep, h, hrep => by
      simp only [nodupPropsTys, Bool.and_eq_true] at h
      simp only [expandProps, nodupPropsTys, Bool.and_eq_true]
      exact ⟨nodupTy_expandType t v rep h.1 hrep,
        nodupPropsTys_expandProps rest v rep h.2 hrep⟩
end

theorem nodupTy_unwrapRecType :
    ∀ fuel t u, unwrapRecType fuel t = some u → nodupTy t = true →
      nodupTy u = true := by
  intro fuel
  induction fuel with
  | zero => intro t u h _; simp [unwrapRecType] at h
  | succ k ih =>
      intro t u h ht
      cases t with
      | Rec x b =>
          simp only [unwrapRecType] at h
          simp only [nodupTy] at ht
          exact ih _ _ h (nodupTy_expandType b x (.Rec x b) ht (by simpa [nodupTy] using ht))
      | Boolean => simp only [unwrapRecType] at h; injection h with h; subst h; exact ht
      | Number => simp only [unwrapRecType] at h; injection h with h; subst h; exact ht
      | Func ps r => simp only [unwrapRecType] at h; injection h with h; subst h; exact ht
      | Object ps => simp only [unwrapRecType] at h; injection h with h; subst h; exact ht
      | TypeVar n => simp only [unwrapRecType] at h; injection h with h; subst h; exact ht

theorem hasName_of_memProp :
    ∀ (ps : RProps) (n : String) (t : RecTy), MemProp n t ps → hasName ps n = true
  | .nil, _, _, h => nomatch h
  | .cons m s rest, n, t, h => by
      rcases h with ⟨h1, _⟩ | h2
      · subst h1
        simp [hasName, findProp]
      · have := hasName_of_memProp rest n t h2
        simp only [hasName, findProp] at this ⊢
        by_cases hm : m = n
        · simp [hm]
        · simpa [hm] using this

theorem findProp_of_distinct :
    ∀ (ps : RProps) (n : String) (t : RecTy),
      distinctNames ps = true → MemProp n t ps → findProp ps n = some t
  | .nil, _, _, _, hm => nomatch hm
  | .cons m s rest, n, t, hd, hm => by
      simp only [distinctNames, Bool.and_eq_true, Bool.not_eq_true'] at hd
      rcases hm with ⟨h1, h2⟩ | hmem
      · subst h1; subst h2
        simp [findProp]
      · have hfind := findProp_of_distinct rest n t hd.2 hmem
        have hne : m ≠ n := by
          intro e
          subst e
          rw [hasName_of_memProp rest m t hmem] at hd
          exact absurd hd.1 (by simp)
        simp [findProp, hne, hfind]

theorem nodupTy_of_memProp :
    ∀ (ps : RProps) (n : String) (t : RecTy),
      nodupPropsTys ps = true → MemProp n t ps → nodupTy t = true
  | .nil, _, _, _, hm => nomatch hm
  | .cons m s rest, n, t, hps, hm => by
      simp only [nodupPropsTys, Bool.and_eq_true] at hps
      rcases hm with ⟨_, h2⟩ | hmem
      · subst h2; exact hps.1
      · exact nodupTy_of_memProp rest n t hps.2 hmem

theorem memProp_head (n : String) (t : RecTy) (rest : RProps) :
    MemProp n t (.cons n t rest) :=
  Or.inl ⟨rfl, rfl⟩

theorem memProp_tail {n : String} {t : RecTy} (m : String) (s : RecTy)
    {rest : RProps} (h : MemProp n t rest) : MemProp n t (.cons m s rest) :=
  Or.inr h

theorem subLoopParams_diag_ne_false
    (f : RecTy → RecTy → Option (Except String Bool)) :
    ∀ ps : RProps, (∀ n t, MemProp n t ps → f t t ≠ some (.ok false)) →
      subLoopParams f ps ps ≠ some (.ok false)
  | .nil, _ => by simp [subLoopParams]
  | .cons n t rest, hf => by
      simp only [subLoopParams]
      cases hft : f t t with
      | none => simp
      | some r =>
          cases r with
          | error e => simp
          | ok b =>
              cases b with
              | false => exact absurd hft (hf n t (memProp_head n t rest))
              | true =>
                  simpa using subLoopParams_diag_ne_false f rest
                    (fun n1 t1 h => hf n1 t1 (memProp_tail n t h))

theorem subLoopProps_ne_false
    (f : RecTy → RecTy → Option (Except String Bool)) (ps1 : RProps) :
    ∀ ps2 : RProps,
      (∀ n t, MemProp n t ps2 → findProp ps1 n = some t) →
      (∀ n t, MemProp n t ps2 → f t t ≠ some (.ok false)) →
      subLoopProps f ps1 ps2 ≠ some (.ok false)
  | .nil, _, _ => by simp [subLoopProps]
  | .cons n t rest, hfind, hf => by
      simp only [subLoopProps]
      rw [hfind n t (memProp_head n t rest)]
      cases hft : f t t with
      | none => simp [hft]
      | some r =>
          cases r with
          | error e => simp [hft]
          | ok b =>
              cases b with
              | false => exact absurd hft (hf n t (memProp_head n t rest))
              | true =>
                  simp only [hft]
                  simpa using subLoopProps_ne_false f ps1 rest
                    (fun n1 t1 h => hfind n1 t1 (memProp_tail n t h))
                    (fun n1 t1 h => hf n1 t1 (memProp_tail n t h))

theorem typeEqSub_diag_ne_false :
    ∀ fuel : Nat,
      (∀ t seen, nodupTy t = true →
        typeEqSub fuel t t seen ≠ some (.ok false)) ∧
      (∀ t u seen, nodupTy t = true → (∃ m, unwrapRecType m t = some u) →
        typeEqSub fuel u t seen ≠ some (.ok false)) := by
  intro fuel
  induction fuel with
  | zero =>
      refine ⟨?_, ?_⟩
      · intro t seen _
        simp [typeEqSub]
      · intro t u seen _ _
        simp [typeEqSub]
  | succ fuel ih =>
      obtain ⟨ihA, ihB⟩ := ih
      have hA : ∀ t seen, nodupTy t = true →
          typeEqSub (fuel + 1) t t seen ≠ some (.ok false) := by
        intro t seen ht
        simp only [typeEqSub]
        cases hs : hasSeen t t seen with
        | error e => simp
        | ok b =>
            cases b with
            | true => simp
            | false =>
                cases t with
                | Rec x b =>
                    dsimp only
                    cases hu : unwrapRecType (fuel + 1) (.Rec x b) with
                    | none => simp
                    | some u =>
                        dsimp only
                        exact ihB (.Rec x b) u _ ht ⟨fuel + 1, hu⟩
                | Boolean => simp [isBooleanTy]
                | Number => simp [isNumberTy]
                | TypeVar n => simp
                | Func ps r =>
                    dsimp only
                    rw [if_pos rfl]
                    simp only [nodupTy, Bool.and_eq_true] at ht
                    cases hsl : subLoopParams
                        (fun a b => typeEqSub fuel a b seen) ps ps with
                    | none => simp
                    | some r2 =>
                        cases r2 with
                        | error e => simp
                        | ok b2 =>
                            cases b2 with
                            | false =>
                                refine absurd hsl
                                  (subLoopParams_diag_ne_false _ ps ?_)
                                intro n t1 hmem
                                exact ihA t1 seen
                                  (nodupTy_of_memProp ps n t1 ht.1 hmem)
                            | true => simpa using ihA r seen ht.2
                | Object ps =>
                    dsimp only
                    rw [if_pos rfl]
                    simp only [nodupTy, Bool.and_eq_true] at ht
                    refine subLoopProps_ne_false _ ps ps ?_ ?_
                    · intro n t1 hmem
                      exact findProp_of_distinct ps n t1 ht.1 hmem
                    · intro n t1 hmem
                      exact ihA t1 seen (nodupTy_of_memProp ps n t1 ht.2 hmem)
      refine ⟨hA, ?_⟩
      intro t u seen ht hex
      obtain ⟨m, hm⟩ := hex
      have hurec : isRecTy u = false := unwrapRecType_isRec_false m t u hm
      cases t with
      | Boolean =>
          have hu : u = .Boolean := by
            cases m with
            | zero => simp [unwrapRecType] at hm
            | succ k =>
                rw [unwrapRecType_nonrec k .Boolean rfl] at hm
                injection hm with hm
                exact hm.symm
          subst hu
          exact hA .Boolean seen ht
      | Number =>
          have hu : u = .Number := by
            cases m with
            | zero => simp [unwrapRecType] at hm
            | succ k =>
                rw [unwrapRecType_nonrec k .Number rfl] at hm
                injection hm with hm
                exact hm.symm
          subst hu
          exact hA .Number seen ht
      | Func ps r =>
          have hu : u = .Func ps r := by
            cases m with
            | zero => simp [unwrapRecType] at hm
            | succ k =>
                rw [unwrapRecType_nonrec k (.Func ps r) rfl] at hm
                injection hm with hm
                exact hm.symm
          subst hu
          exact hA (.Func ps r) seen ht
      | Object ps =>
          have hu : u = .Object ps := by
            cases m with
            | zero => simp [unwrapRecType] at hm
            | succ k =>
                rw [unwrapRecType_nonrec k (.Object ps) rfl] at hm
                injection hm with hm
                exact hm.symm
          subst hu
          exact hA (.Object ps) seen ht
      | TypeVar n =>
          have hu : u = .TypeVar n := by
            cases m with
            | zero => simp [unwrapRecType] at hm
            | succ k =>
                rw [unwrapRecType_nonrec k (.TypeVar n) rfl] at hm
                injection hm with hm
                exact hm.symm
          subst hu
          exact hA (.TypeVar n) seen ht
      | Rec x b =>
          have hnodup_u : nodupTy u = true := nodupTy_unwrapRecType m _ u hm ht
          simp only [typeEqSub]
          cases hs : hasSeen u (.Rec x b) seen with
          | error e => simp
          | ok bb =>
              cases bb with
              | true => simp
              | false =>
                  rcases unwrapRecType_det m (fuel + 1) (.Rec x b) u hm with
                    hdet | hdet
                  · cases u with
                    | Rec a c => simp [isRecTy] at hurec
                    | Boolean =>
                        dsimp only
                        rw [hdet]
                        dsimp only
                        exact ihA .Boolean _ hnodup_u
                    | Number =>
                        dsimp only
                        rw [hdet]
                        dsimp only
                        exact ihA .Number _ hnodup_u
                    | Func ps r =>
                        dsimp only
                        rw [hdet]
                        dsimp only
                        exact ihA (.Func ps r) _ hnodup_u
                    | Object ps =>
                        dsimp only
                        rw [hdet]
                        dsimp only
                        exact ihA (.Object ps) _ hnodup_u
                    | TypeVar n =>
                        dsimp only
                        rw [hdet]
                        dsimp only
                        exact ihA (.TypeVar n) _ hnodup_u
                  · cases u with
                    | Rec a c => simp [isRecTy] at hurec
                    | Boolean =>
                        dsimp only
                        rw [hdet]
                        simp
                    | Number =>
                        dsimp only
                        rw [hdet]
                        simp
                    | Func ps r =>
                        dsimp only
                        rw [hdet]
                        simp
                    | Object ps =>
                        dsimp only
                        rw [hdet]
                        simp
                    | TypeVar n =>
                        dsimp only
                        rw [hdet]
                        simp

theorem forall_memProp_cons {P : String → RecTy → Prop} {n2 : String}
    {t2 : RecTy} {rest : RProps} :
    (∀ n t, MemProp n t (.cons n2 t2 rest) → P n t) ↔
      (P n2 t2 ∧ ∀ n t, MemProp n t rest → P n t) := by
  constructor
  · intro h
    exact ⟨h n2 t2 (memProp_head n2 t2 rest),
      fun n t hm => h n t (memProp_tail n2 t2 hm)⟩
  · rintro ⟨h1, h2⟩ n t hm
    rcases hm with ⟨e1, e2⟩ | hm
    · subst e1; subst e2; exact h1
    · exact h2 n t hm

theorem hasSeen_ok_true_iff :
    ∀ (seen : List (RecTy × RecTy)) (t1 t2 : RecTy),
      (∀ p ∈ seen, (∃ b, typeEqNaive p.1 t1 [] = .ok b) ∧
        (∃ b, typeEqNaive p.2 t2 [] = .ok b)) →
      (hasSeen t1 t2 seen = .ok true ↔
        ∃ p, p ∈ seen ∧ typeEqNaive p.1 t1 [] = .ok true ∧
          typeEqNaive p.2 t2 [] = .ok true)
  | [], t1, t2, _ => by simp [hasSeen]
  | (s1, s2) :: rest, t1, t2, hok => by
      obtain ⟨⟨b1, hb1⟩, ⟨b2, hb2⟩⟩ := hok (s1, s2) (by simp)
      have hrest := hasSeen_ok_true_iff rest t1 t2
        (fun p hp => hok p (List.mem_cons_of_mem _ hp))
      simp only [hasSeen, hb1]
      cases b1 with
      | false =>
          rw [hrest]
          constructor
          · rintro ⟨p, hp, h⟩
            exact ⟨p, List.mem_cons_of_mem _ hp, h⟩
          · rintro ⟨p, hp, h⟩
            rcases List.mem_cons.mp hp with he | hp2
            · subst he
              rw [h.1] at hb1
              cases hb1
            · exact ⟨p, hp2, h⟩
      | true =>
          simp only [hb2]
          cases b2 with
          | false =>
              rw [hrest]
              constructor
              · rintro ⟨p, hp, h⟩
                exact ⟨p, List.mem_cons_of_mem _ hp, h⟩
              · rintro ⟨p, hp, h⟩
                rcases List.mem_cons.mp hp with he | hp2
                · subst he
                  rw [h.2] at hb2
                  cases hb2
                · exact ⟨p, hp2, h⟩
          | true =>
              constructor
              · intro _
                exact ⟨(s1, s2), by simp, hb1, hb2⟩
              · intro _
                rfl

theorem typeEqNaiveProps_ok_true_iff :
    ∀ (ps2 ps1 : RProps) (m : VarMap),
      typeEqNaiveProps ps1 ps2 m = .ok true ↔
        ∀ n t, MemProp n t ps2 →
          ∃ t1, findProp ps1 n = some t1 ∧ typeEqNaive t1 t m = .ok true
  | .nil, ps1, m => by
      constructor
      · intro _ n t hm
        exact absurd hm (by intro h; exact h)
      · intro _
        rfl
  | .cons n2 t2 rest, ps1, m => by
      rw [forall_memProp_cons]
      simp only [typeEqNaiveProps]
      cases hfind : findProp ps1 n2 with
      | none =>
          dsimp only
          constructor
          · intro h
            exact absurd h (by simp)
          · rintro ⟨⟨t1, ht1, _⟩, _⟩
            exact Option.noConfusion ht1
      | some t1 =>
          dsimp only
          cases heq : typeEqNaive t1 t2 m with
          | error e =>
              dsimp only
              constructor
              · intro h
                exact absurd h (by simp)
              · rintro ⟨⟨t1x, ht1x, htx⟩, _⟩
                injection ht1x with ht1x
                subst ht1x
                rw [heq] at htx
                exact Except.noConfusion htx
          | ok b =>
              cases b with
              | false =>
                  dsimp only
                  constructor
                  · intro h
                    exact absurd h (by simp)
                  · rintro ⟨⟨t1x, ht1x, htx⟩, _⟩
                    injection ht1x with ht1x
                    subst ht1x
                    rw [heq] at htx
                    injection htx with htx
                    exact Bool.noConfusion htx
              | true =>
                  dsimp only
                  rw [typeEqNaiveProps_ok_true_iff rest ps1 m]
                  constructor
                  · intro h
                    exact ⟨⟨t1, rfl, heq⟩, h⟩
                  · rintro ⟨_, h⟩
                    exact h

mutual
theorem expandType_not_free :
    ∀ (t : RecTy) (v : String) (rep : RecTy),
      occursFree v t = false → expandType t v rep = t
  | .Boolean, _, _, _ => rfl
  | .Number, _, _, _ => rfl
  | .Func ps ret, v, rep, h => by
      simp only [occursFree, Bool.or_eq_false_iff] at h
      simp only [expandType]
      rw [expandProps_not_free ps v rep h.1, expandType_not_free ret v rep h.2]
  | .Object ps, v, rep, h => by
      simp only [occursFree] at h
      simp only [expandType]
      rw [expandProps_not_free ps v rep h]
  | .Rec x body, v, rep, h => by
      simp only [occursFree] at h
      simp only [expandType]
      by_cases hx : x = v
      · rw [if_pos hx]
      · rw [if_neg hx] at h
        rw [if_neg hx, expandType_not_free body v rep h]
  | .TypeVar n, v, rep, h => by
      simp only [occursFree, beq_eq_false_iff_ne] at h
      simp only [expandType, if_neg h]

theorem expandProps_not_free :
    ∀ (ps : RProps) (v : String) (rep : RecTy),
      occursFreeProps v ps = false → expandProps ps v rep = ps
  | .nil, _, _, _ => rfl
  | .cons n t rest, v, rep, h => by
      simp only [occursFreeProps, Bool.or_eq_false_iff] at h
      simp only [expandProps]
      rw [expandType_not_free t v rep h.1, expandProps_not_free rest v rep h.2]
end

theorem memSProp_head (n : String) (t : SubTy) (rest : SParams) :
    MemSProp n t (.cons n t rest) :=
  Or.inl ⟨rfl, rfl⟩

theorem memSProp_tail {n : String} {t : SubTy} (m : String) (s : SubTy)
    {rest : SParams} (h : MemSProp n t rest) : MemSProp n t (.cons m s rest) :=
  Or.inr h

theorem forall_memSProp_cons {P : String → SubTy → Prop} {n2 : String}
    {t2 : SubTy} {rest : SParams} :
    (∀ n t, MemSProp n t (.cons n2 t2 rest) → P n t) ↔
      (P n2 t2 ∧ ∀ n t, MemSProp n t rest → P n t) := by
  constructor
  · intro h
    exact ⟨h n2 t2 (memSProp_head n2 t2 rest),
      fun n t hm => h n t (memSProp_tail n2 t2 hm)⟩
  · rintro ⟨h1, h2⟩ n t hm
    rcases hm with ⟨e1, e2⟩ | hm
    · subst e1; subst e2; exact h1
    · exact h2 n t hm

theorem subtypeProps_true_iff :
    ∀ (ps2 ps1 : SParams),
      subtypeProps ps1 ps2 = true ↔
        ∀ n t, MemSProp n t ps2 →
          ∃ t1, findSProp ps1 n = some t1 ∧ subtype t1 t = true
  | .nil, ps1 => by
      constructor
      · intro _ n t hm
        exact absurd hm (by intro h; exact h)
      · intro _
        simp [subtypeProps]
  | .cons n2 t2 rest, ps1 => by
      rw [forall_memSProp_cons]
      rw [show subtypeProps ps1 (.cons n2 t2 rest) =
        ((match h : findSProp ps1 n2 with
          | none => false
          | some t1 => subtype t1 t2) && subtypeProps ps1 rest) from by
        rw [subtypeProps]]
      rw [Bool.and_eq_true]
      rw [subtypeProps_true_iff rest ps1]
      cases hfind : findSProp ps1 n2 with
      | none =>
          simp only [hfind]
          constructor
          · rintro ⟨h, _⟩
            cases h
          · rintro ⟨⟨t1, ht1, _⟩, _⟩
            exact Option.noConfusion ht1
      | some t1 =>
          simp only [hfind]
          constructor
          · rintro ⟨h1, h2⟩
            exact ⟨⟨t1, rfl, h1⟩, h2⟩
          · rintro ⟨⟨t1x, ht1x, htx⟩, h2⟩
            injection ht1x with ht1x
            subst ht1x
            exact ⟨htx, h2⟩

theorem subtypeParamsContra_true_iff :
    ∀ (ps1 ps2 : SParams), slength ps1 = slength ps2 →
      (subtypeParamsContra ps1 ps2 = true ↔
        ∀ i t1 t2, typeAtS ps1 i = some t1 → typeAtS ps2 i = some t2 →
          subtype t2 t1 = true)
  | .nil, .nil, _ => by
      constructor
      · intro _ i t1 t2 h1 _
        cases i <;> cases h1
      · intro _
        simp [subtypeParamsContra]
  | .nil, .cons _ _ _, h => by simp [slength] at h
  | .cons _ _ _, .nil, h => by simp [slength] at h
  | .cons n1 t1 r1, .cons n2 t2 r2, hlen => by
      simp only [slength, Nat.add_right_cancel_iff] at hlen
      rw [show subtypeParamsContra (.cons n1 t1 r1) (.cons n2 t2 r2) =
        (subtype t2 t1 && subtypeParamsContra r1 r2) from by
        rw [subtypeParamsContra]]
      rw [Bool.and_eq_true]
      rw [subtypeParamsContra_true_iff r1 r2 hlen]
      constructor
      · rintro ⟨h1, h2⟩ i a b ha hb
        cases i with
        | zero =>
            simp only [typeAtS] at ha hb
            injection ha with ha
            injection hb with hb
            subst ha; subst hb
            exact h1
        | succ j =>
            simp only [typeAtS] at ha hb
            exact h2 j a b ha hb
      · intro h
        refine ⟨h 0 t1 t2 rfl rfl, ?_⟩
        intro j a b ha hb
        exact h (j + 1) a b ha hb

theorem typeEq_badRec_none : typeEqDiverges badRec badRec := by
  intro fuel
  cases fuel with
  | zero => rfl
  | succ k =>
      show typeEqSub (k + 1) badRec badRec [] = none
      rw [show typeEqSub (k + 1) badRec badRec [] =
        (match unwrapRecType (k + 1) badRec with
         | none => none
         | some u => typeEqSub k u badRec ([] ++ [(badRec, badRec)])) from rfl]
      rw [badRec_unwrap_none (k + 1)]

/-- C2, counterexample: the equality machinery is not total on all
well-formed closed types. The closed, duplicate-free type `µX.X`
(`Rec{name:"X", type:TypeVar "X"}`) makes `unwrapRecType`, and therefore
`typeEq`, recurse forever: in the fuel embedding, no amount of fuel
produces a result. -/
theorem c2_totality_cex :
    closedTy badRec = true ∧ nodupTy badRec = true ∧
    unwrapDiverges badRec ∧ typeEqDiverges badRec badRec :=
  ⟨rfl, rfl, badRec_unwrap_none, typeEq_badRec_none⟩

/-- C2, amended: totality fails on unguarded closed types such as `µX.X`,
so the claim holds only under a guardedness precondition: `unwrapRecType`
returns a non-`Rec` input unchanged in one step, and when a `Rec` body
starts with a structural constructor (Boolean/Number/Func/Object) it
returns the one-step unfolding — a non-`Rec` type — in two steps; the
equality does terminate on guarded self- and mutually-referential types
such as the NumStream pair of the tests, and the (spec-modelled) subtype
check is a total structural recursion by construction. -/
theorem c2_totality_amended (t b : RecTy) (x : String)
    (hguard : isStructuralHead b = true) (hnonrec : isRecTy t = false) :
    unwrapRecType 1 t = some t ∧
    unwrapRecType 2 (.Rec x b) = some (expandType b x (.Rec x b)) ∧
    isRecTy (expandType b x (.Rec x b)) = false ∧
    typeEq 20 numStream numStreamY = some (.ok true) := by
  refine ⟨unwrapRecType_nonrec 0 t hnonrec, ?_, ?_, rfl⟩
  · cases b with
    | Boolean => rfl
    | Number => rfl
    | Func ps ret => rfl
    | Object ps => rfl
    | Rec y c => simp [isStructuralHead] at hguard
    | TypeVar n => simp [isStructuralHead] at hguard
  · cases b with
    | Boolean => rfl
    | Number => rfl
    | Func ps ret => rfl
    | Object ps => rfl
    | Rec y c => simp [isStructuralHead] at hguard
    | TypeVar n => simp [isStructuralHead] at hguard

/-- C2, witness: the amended totality statement at the NumStream type. -/
theorem c2_totality_amended_app :
    unwrapRecType 1 .Number = some .Number ∧
    unwrapRecType 2 numStream =
      some (expandType (.Object (.cons "num" .Number
        (.cons "rest" (.Func .nil (.TypeVar "X")) .nil))) "X" numStream) ∧
    typeEq 20 numStream numStreamY = some (.ok true) := by
  have h := c2_totality_amended .Number
    (.Object (.cons "num" .Number (.cons "rest" (.Func .nil (.TypeVar "X")) .nil)))
    "X" rfl rfl
  exact ⟨h.1, h.2.1, h.2.2.2⟩

/-- C5, counterexample: `substitute` of src/poly.ts performs no renaming
when it enters a nested `TypeAbs` whose bound name collides with the
variable being substituted: substituting Number for "U" in
`TypeAbs(["U"], TypeVar "U")` replaces the inner bound occurrence,
yielding `TypeAbs(["U"], Number)` — neither the unchanged binder body nor
a freshly renamed `"U@1"` binder. -/
theorem c5_hygiene_cex :
    substitute (.TypeAbs ["U"] (.TypeVar "U")) "U" .Number =
      .TypeAbs ["U"] .Number ∧
    substitute (.TypeAbs ["U"] (.TypeVar "U")) "U" .Number ≠
      .TypeAbs ["U"] (.TypeVar "U") ∧
    substitute (.TypeAbs ["U"] (.TypeVar "U")) "U" .Number ≠
      .TypeAbs ["U@1"] (.TypeVar "U@1") := by
  refine ⟨rfl, ?_, ?_⟩
  · intro h
    injection h with h1 h2
    exact PolyTy.noConfusion h2
  · intro h
    injection h with h1 h2
    exact absurd h1 (by decide)

/-- C5, amended: `substitute` (src/poly.ts lines 68-71) substitutes into a
`TypeAbs` body unconditionally — it never renames a colliding binder and
never stops at one; the `"U@1"`-style disambiguation observed in the
tests is produced upstream (by the parser's globally unique naming), not
by `substitute`. -/
theorem c5_substitute_typeabs :
    ∀ (xs : List String) (body : PolyTy) (v : String) (c : PolyTy),
      substitute (.TypeAbs xs body) v c = .TypeAbs xs (substitute body v c) :=
  fun _ _ _ _ => rfl

/-- C5, witness: the amended equation at a concrete shadowing instance. -/
theorem c5_substitute_typeabs_app :
    substitute (.TypeAbs ["T"] (.TypeVar "S")) "S" .Boolean =
      .TypeAbs ["T"] (substitute (.TypeVar "S") "S" .Boolean) :=
  c5_substitute_typeabs ["T"] (.TypeVar "S") "S" .Boolean

/-- C6, counterexample: in `typeEqRec` of src/poly.ts, a right-hand
`TypeVar "B"` compares equal to a left-hand `TypeVar "A"` whenever the
binding map has any entry for "A" — here the entry is "C", which differs
from "B", yet the result is true, contradicting the claim that the entry
must equal the right-hand name. -/
theorem c6_typevar_cex :
    typeEqRec (.TypeVar "A") (.TypeVar "B") [("A", "C")] = .ok true ∧
    lookupVar [("A", "C")] "A" = some "C" ∧ "C" ≠ "B" :=
  ⟨rfl, rfl, by decide⟩

/-- C6, amended: when the right-hand type is `TypeVar{name}`, `typeEqRec`
(src/poly.ts) returns true iff the left-hand type is a `TypeVar` whose
name has any entry in the binding map — the entry's value is not compared
to `name` — while `typeEqNaive` (src/rec.ts) returns true iff the entry
exists and equals `name`; in both, a missing entry throws the
"unknown type variable" assertion failure instead of returning false. -/
theorem c6_typevar_amended :
    (∀ t1 n2 m, typeEqRec t1 (.TypeVar n2) m = .ok true ↔
      ∃ n1 v, t1 = .TypeVar n1 ∧ lookupVar m n1 = some v) ∧
    (∀ n1 n2 m, lookupVar m n1 = none →
      typeEqRec (.TypeVar n1) (.TypeVar n2) m =
        .error ("unknown type variable: " ++ n1)) ∧
    (∀ t1 n2 m, typeEqNaive t1 (.TypeVar n2) m = .ok true ↔
      ∃ n1, t1 = .TypeVar n1 ∧ lookupVar m n1 = some n2) ∧
    (∀ n1 n2 m, lookupVar m n1 = none →
      typeEqNaive (.TypeVar n1) (.TypeVar n2) m =
        .error ("unknown type variable: " ++ n1)) := by
  refine ⟨?_, ?_, ?_, ?_⟩
  · intro t1 n2 m
    cases t1 with
    | TypeVar n1 =>
        simp only [typeEqRec]
        cases hl : lookupVar m n1 with
        | none =>
            dsimp only
            constructor
            · intro h
              exact absurd h (by simp)
            · rintro ⟨n1x, v, he, hv⟩
              injection he with he
              subst he
              rw [hl] at hv
              exact Option.noConfusion hv
        | some v =>
            dsimp only
            constructor
            · intro _
              exact ⟨n1, v, rfl, hl⟩
            · intro _
              rfl
    | Boolean => simp [typeEqRec]
    | Number => simp [typeEqRec]
    | Func ps r => simp [typeEqRec]
    | TypeAbs xs bdy => simp [typeEqRec]
  · intro n1 n2 m h
    simp only [typeEqRec, h]
  · intro t1 n2 m
    cases t1 with
    | TypeVar n1 =>
        simp only [typeEqNaive]
        cases hl : lookupVar m n1 with
        | none =>
            dsimp only
            constructor
            · intro h
              exact absurd h (by simp)
            · rintro ⟨n1x, he, hv⟩
              injection he with he
              subst he
              rw [hl] at hv
              exact Option.noConfusion hv
        | some v =>
            dsimp only
            constructor
            · intro h
              injection h with h
              refine ⟨n1, rfl, ?_⟩
              rw [hl]
              have : v = n2 := of_decide_eq_true h
              rw [this]
            · rintro ⟨n1x, he, hv⟩
              injection he with he
              subst he
              rw [hl] at hv
              injection hv with hv
              subst hv
              simp
    | Boolean => simp [typeEqNaive]
    | Number => simp [typeEqNaive]
    | Func ps r => simp [typeEqNaive]
    | Object ps => simp [typeEqNaive]
    | Rec x b => simp [typeEqNaive]
  · intro n1 n2 m h
    simp only [typeEqNaive, h]

/-- C6, witness: the amended statement at concrete inputs — a present
entry that differs from the right name (true under `typeEqRec`, false
under `typeEqNaive`) and a missing entry (assertion failure in both). -/
theorem c6_typevar_amended_app :
    typeEqRec (.TypeVar "A") (.TypeVar "B") [("A", "C")] = .ok true ∧
    typeEqRec (.TypeVar "Z") (.TypeVar "W") [] =
      .error ("unknown type variable: " ++ "Z") ∧
    typeEqNaive (.TypeVar "Z") (.TypeVar "W") [] =
      .error ("unknown type variable: " ++ "Z") := by
  refine ⟨?_, ?_, ?_⟩
  · exact (c6_typevar_amended.1 (.TypeVar "A") "B" [("A", "C")]).mpr
      ⟨"A", "C", rfl, rfl⟩
  · exact c6_typevar_amended.2.1 "Z" "W" [] rfl
  · exact c6_typevar_amended.2.2.2 "Z" "W" [] rfl

/-- C9, counterexample: reflexivity does not hold for every closed type.
The closed, duplicate-free type `µX.X` compared to itself from the empty
seen-pair list never returns true: the comparison diverges (no fuel
yields any result at all). -/
theorem c9_reflexivity_cex :
    closedTy badRec = true ∧ nodupTy badRec = true ∧
    typeEqDiverges badRec badRec :=
  ⟨rfl, rfl, typeEq_badRec_none⟩

/-- C9, amended: for every type whose record fields are duplicate-free,
comparing it with itself from the empty seen-pair list never returns
false (whenever the comparison terminates it returns true), and on the
guarded self-referential NumStream type of the tests it does terminate
with true; reflexivity in the claim's unconditional sense fails on
unguarded closed types such as `µX.X`. -/
theorem c9_reflexivity_amended (t : RecTy) (fuel : Nat)
    (h : nodupTy t = true) :
    typeEqSub fuel t t [] ≠ some (.ok false) ∧
    typeEq 20 numStream numStream = some (.ok true) :=
  ⟨(typeEqSub_diag_ne_false fuel).1 t [] h, rfl⟩

/-- C9, witness: the amended reflexivity at the NumStream type. -/
theorem c9_reflexivity_amended_app :
    typeEqSub 5 numStream numStream [] ≠ some (.ok false) ∧
    typeEq 20 numStream numStream = some (.ok true) :=
  ⟨(c9_reflexivity_amended numStream 5 rfl).1,
    (c9_reflexivity_amended numStream 5 rfl).2⟩

/-- C10: `typeEqNaive` relates two `Rec` types by comparing their bodies
under the binding map extended with the left bound name mapped to the
right one, so two `Rec` types differing only in the spelling of their
bound name (bodies identical up to that renaming) are equal under every
binding map. -/
theorem c10_naive_rec_binders :
    (∀ x y b1 b2 m, typeEqNaive (.Rec x b1) (.Rec y b2) m =
      typeEqNaive b1 b2 ((x, y) :: m)) ∧
    (∀ m, typeEqNaive (.Rec "X" (.Object (.cons "foo" (.TypeVar "X") .nil)))
      (.Rec "Y" (.Object (.cons "foo" (.TypeVar "Y") .nil))) m = .ok true) :=
  ⟨fun _ _ _ _ _ => rfl, fun _ => rfl⟩

/-- C10, witness: the Rec rule and the renaming example at a concrete
binding map. -/
theorem c10_naive_rec_binders_app :
    typeEqNaive (.Rec "A" .Number) (.Rec "B" .Number) [("Q", "R")] =
      typeEqNaive .Number .Number [("A", "B"), ("Q", "R")] ∧
    typeEqNaive (.Rec "X" (.Object (.cons "foo" (.TypeVar "X") .nil)))
      (.Rec "Y" (.Object (.cons "foo" (.TypeVar "Y") .nil))) [("Q", "R")] =
      .ok true :=
  ⟨c10_naive_rec_binders.1 "A" "B" .Number .Number [("Q", "R")],
    c10_naive_rec_binders.2 [("Q", "R")]⟩

/-- C1: the equi-recursive equality follows exactly the algorithm of
src/rec.ts. Seen-pair membership is decided componentwise by the naive
equality under an empty binding map (first two conjuncts give `hasSeen`'s
two equations; the third characterises a true answer when no comparison
asserts). A seen pair returns true immediately (fourth conjunct). A left
`Rec` is unfolded by substituting its own bound name with the whole node
and the comparison is retried with the pair appended to the seen list
(fifth conjunct); symmetrically on the right (sixth). Once neither side
is `Rec`, the per-variant structural rules pass the current seen list,
not a fresh one, into every sub-comparison (seventh and eighth). -/
theorem c1_typeEqSub_algorithm :
    (∀ t1 t2, hasSeen t1 t2 [] = .ok false) ∧
    (∀ t1 t2 s1 s2 rest, hasSeen t1 t2 ((s1, s2) :: rest) =
      (match typeEqNaive s1 t1 [] with
       | .error e => .error e
       | .ok false => hasSeen t1 t2 rest
       | .ok true =>
           match typeEqNaive s2 t2 [] with
           | .error e => .error e
           | .ok false => hasSeen t1 t2 rest
           | .ok true => .ok true)) ∧
    (∀ seen t1 t2,
      (∀ p ∈ seen, (∃ b, typeEqNaive p.1 t1 [] = .ok b) ∧
        (∃ b, typeEqNaive p.2 t2 [] = .ok b)) →
      (hasSeen t1 t2 seen = .ok true ↔
        ∃ p, p ∈ seen ∧ typeEqNaive p.1 t1 [] = .ok true ∧
          typeEqNaive p.2 t2 [] = .ok true)) ∧
    (∀ fuel t1 t2 seen, hasSeen t1 t2 seen = .ok true →
      typeEqSub (fuel + 1) t1 t2 seen = some (.ok true)) ∧
    (∀ fuel x b t2 seen, hasSeen (.Rec x b) t2 seen = .ok false →
      typeEqSub (fuel + 1) (.Rec x b) t2 seen =
        (match unwrapRecType (fuel + 1) (.Rec x b) with
         | none => none
         | some u => typeEqSub fuel u t2 (seen ++ [(.Rec x b, t2)]))) ∧
    (∀ fuel t1 y b seen, isRecTy t1 = false →
      hasSeen t1 (.Rec y b) seen = .ok false →
      typeEqSub (fuel + 1) t1 (.Rec y b) seen =
        (match unwrapRecType (fuel + 1) (.Rec y b) with
         | none => none
         | some u => typeEqSub fuel t1 u (seen ++ [(t1, .Rec y b)]))) ∧
    (∀ fuel ps1 r1 ps2 r2 seen,
      hasSeen (.Func ps1 r1) (.Func ps2 r2) seen = .ok false →
      typeEqSub (fuel + 1) (.Func ps1 r1) (.Func ps2 r2) seen =
        (if plength ps1 = plength ps2 then
          match subLoopParams (fun a b => typeEqSub fuel a b seen) ps1 ps2 with
          | none => none
          | some (.error e) => some (.error e)
          | some (.ok false) => some (.ok false)
          | some (.ok true) => typeEqSub fuel r1 r2 seen
        else some (.ok false))) ∧
    (∀ fuel ps1 ps2 seen,
      hasSeen (.Object ps1) (.Object ps2) seen = .ok false →
      typeEqSub (fuel + 1) (.Object ps1) (.Object ps2) seen =
        (if plength ps1 = plength ps2 then
          subLoopProps (fun a b => typeEqSub fuel a b seen) ps1 ps2
        else some (.ok false))) := by
  refine ⟨fun t1 t2 => rfl, fun t1 t2 s1 s2 rest => rfl,
    fun seen t1 t2 h => hasSeen_ok_true_iff seen t1 t2 h, ?_, ?_, ?_, ?_, ?_⟩
  · intro fuel t1 t2 seen h
    simp only [typeEqSub, h]
  · intro fuel x b t2 seen h
    simp only [typeEqSub, h]
  · intro fuel t1 y b seen hrec h
    cases t1 with
    | Rec a c => simp [isRecTy] at hrec
    | Boolean => simp only [typeEqSub, h]
    | Number => simp only [typeEqSub, h]
    | Func ps r => simp only [typeEqSub, h]
    | Object ps => simp only [typeEqSub, h]
    | TypeVar n => simp only [typeEqSub, h]
  · intro fuel ps1 r1 ps2 r2 seen h
    simp only [typeEqSub, h]
  · intro fuel ps1 ps2 seen h
    simp only [typeEqSub, h]

/-- C1, witness: the coinductive-assumption rule and the left-unfolding
rule at concrete inputs. -/
theorem c1_typeEqSub_algorithm_app :
    typeEqSub 1 .Number .Number [(.Number, .Number)] = some (.ok true) ∧
    typeEqSub 3 numStream .Number [] =
      (match unwrapRecType 3 numStream with
       | none => none
       | some u => typeEqSub 2 u .Number ([] ++ [(numStream, .Number)])) := by
  constructor
  · exact c1_typeEqSub_algorithm.2.2.2.1 0 .Number .Number
      [(.Number, .Number)] rfl
  · exact c1_typeEqSub_algorithm.2.2.2.2.1 2 "X"
      (.Object (.cons "num" .Number (.cons "rest" (.Func .nil (.TypeVar "X")) .nil)))
      .Number [] rfl

/-- C3: record subtyping is width subtyping (spec-modelled `subtype`): an
object is a subtype of another iff every field of the supertype is found
by name in the subtype with a recursively subtype field type; the subtype
may have extra fields, so `{foo, bar} ≤ {foo}` holds and its converse
fails, matching the `subobj` test of src/sub.test.ts. -/
theorem c3_width_subtyping :
    (∀ ps1 ps2, subtype (.Object ps1) (.Object ps2) = subtypeProps ps1 ps2) ∧
    (∀ ps1 ps2, subtype (.Object ps1) (.Object ps2) = true ↔
      ∀ n t, MemSProp n t ps2 →
        ∃ t1, findSProp ps1 n = some t1 ∧ subtype t1 t = true) ∧
    subtype objFooBar objFoo = true ∧
    subtype objFoo objFooBar = false := by
  have heq : ∀ ps1 ps2,
      subtype (.Object ps1) (.Object ps2) = subtypeProps ps1 ps2 := by
    intro ps1 ps2
    simp [subtype]
  refine ⟨heq, ?_, ?_, ?_⟩
  · intro ps1 ps2
    rw [heq]
    exact subtypeProps_true_iff ps2 ps1
  · simp [objFooBar, objFoo, subtype, subtypeProps, findSProp]
  · simp [objFooBar, objFoo, subtype, subtypeProps, findSProp]

/-- C3, witness: the width characterisation applied at the test's concrete
records. -/
theorem c3_width_subtyping_app :
    subtype (.Object (.cons "foo" .Number (.cons "bar" .Number .nil)))
      (.Object (.cons "foo" .Number .nil)) = true := by
  refine (c3_width_subtyping.2.1 _ _).mpr ?_
  intro n t hm
  rcases hm with ⟨e1, e2⟩ | hm
  · subst e1; subst e2
    exact ⟨.Number, rfl, by simp [subtype]⟩
  · exact absurd hm (by intro h; exact h)

/-- C4, counterexample: the claim's concrete instance is reversed. By the
contravariant rule (and by the failing call of src/sub.test.ts lines
182-190), a function whose parameter is the wider record
`{foo: number, bar: boolean}` is not a subtype of one whose parameter is
`{foo: number}`: the check returns false where the claim says true. -/
theorem c4_variance_cex :
    subtype funcWideParam funcNarrowParam = false := by
  simp [funcWideParam, funcNarrowParam, subtype, subtypeParamsContra,
    subtypeProps, findSProp, slength]

/-- C4, amended: function subtyping (spec-modelled `subtype`) is
contravariant in parameters and covariant in the return type —
`Func P1 R1 ≤ Func P2 R2` iff the parameter counts are equal, `R1 ≤ R2`,
and `P2[i] ≤ P1[i]` at every position — so it is the function whose
parameter is the narrower record `{foo: number}` that is a subtype of the
one whose parameter is `{foo: number, bar: boolean}`, and the reverse is
false. -/
theorem c4_variance_amended :
    (∀ ps1 r1 ps2 r2, subtype (.Func ps1 r1) (.Func ps2 r2) =
      ((slength ps1 == slength ps2) && subtypeParamsContra ps1 ps2 &&
        subtype r1 r2)) ∧
    (∀ ps1 r1 ps2 r2, subtype (.Func ps1 r1) (.Func ps2 r2) = true ↔
      (slength ps1 = slength ps2 ∧ subtype r1 r2 = true ∧
        ∀ i t1 t2, typeAtS ps1 i = some t1 → typeAtS ps2 i = some t2 →
          subtype t2 t1 = true)) ∧
    subtype funcNarrowParam funcWideParam = true ∧
    subtype funcWideParam funcNarrowParam = false := by
  have heq : ∀ ps1 r1 ps2 r2, subtype (.Func ps1 r1) (.Func ps2 r2) =
      ((slength ps1 == slength ps2) && subtypeParamsContra ps1 ps2 &&
        subtype r1 r2) := by
    intro ps1 r1 ps2 r2
    simp [subtype]
  refine ⟨heq, ?_, ?_, ?_⟩
  · intro ps1 r1 ps2 r2
    rw [heq]
    simp only [Bool.and_eq_true, beq_iff_eq]
    constructor
    · rintro ⟨⟨hlen, hcontra⟩, hret⟩
      exact ⟨hlen, hret,
        (subtypeParamsContra_true_iff ps1 ps2 hlen).mp hcontra⟩
    · rintro ⟨hlen, hret, h⟩
      exact ⟨⟨hlen, (subtypeParamsContra_true_iff ps1 ps2 hlen).mpr h⟩, hret⟩
  · simp [funcWideParam, funcNarrowParam, subtype, subtypeParamsContra,
      subtypeProps, findSProp, slength]
  · simp [funcWideParam, funcNarrowParam, subtype, subtypeParamsContra,
      subtypeProps, findSProp, slength]

/-- C4, witness: the variance characterisation applied at the tests'
concrete function types. -/
theorem c4_variance_amended_app :
    subtype funcNarrowParam funcWideParam = true ∧
    slength (.cons "x" (.Object (.cons "foo" .Number .nil)) .nil) =
      slength (.cons "x" (.Object (.cons "foo" .Number
        (.cons "bar" .Boolean .nil))) .nil) := by
  refine ⟨?_, rfl⟩
  refine (c4_variance_amended.2.1 _ .Number _ .Number).mpr ?_
  refine ⟨rfl, by simp [subtype], ?_⟩
  intro i t1 t2 h1 h2
  cases i with
  | zero =>
      injection h1 with h1
      injection h2 with h2
      subst h1
      subst h2
      simp [subtype, subtypeProps, findSProp]
  | succ j => cases h1

/-- C7: `substitute` of src/poly.ts and `expandType` of src/rec.ts replace
exactly the free occurrences of the named type variable: primitives are
unchanged, `Func`/`Object` nodes are rebuilt with the substitution applied
to every component, a `TypeVar` of the same name becomes the replacement
and of a different name is unchanged, a `Rec` binder of the same name
shields its body entirely, and a type without a free occurrence of the
variable is returned unchanged; the spec's concrete instance
`substitute((x:T)=>T, "T", Number) = (x:Number)=>Number` holds. -/
theorem c7_substitute_contract (n v x : String) (c : PolyTy)
    (t b rep : RecTy) (hn : n ≠ v) (hx : x ≠ v)
    (hfree : occursFree v t = false) :
    (∀ w d, substitute .Boolean w d = .Boolean ∧
      substitute .Number w d = .Number) ∧
    (∀ ps ret w d, substitute (.Func ps ret) w d =
      .Func (substituteParams ps w d) (substitute ret w d)) ∧
    (∀ w d, substitute (.TypeVar w) w d = d) ∧
    substitute (.TypeVar n) v c = .TypeVar n ∧
    (∀ ps w rep2, expandType (.Object ps) w rep2 =
      .Object (expandProps ps w rep2)) ∧
    (∀ w b2 rep2, expandType (.Rec w b2) w rep2 = .Rec w b2) ∧
    expandType (.Rec x b) v rep = .Rec x (expandType b v rep) ∧
    expandType t v rep = t ∧
    substitute (.Func (.cons "x" (.TypeVar "T") .nil) (.TypeVar "T"))
      "T" .Number = .Func (.cons "x" .Number .nil) .Number := by
  refine ⟨fun w d => ⟨rfl, rfl⟩, fun ps ret w d => rfl, ?_, ?_, fun ps w rep2 => rfl,
    ?_, ?_, expandType_not_free t v rep hfree, rfl⟩
  · intro w d
    simp [substitute]
  · simp [substitute, hn]
  · intro w b2 rep2
    simp [expandType]
  · simp [expandType, hx]

/-- C7, witness: the contract at concrete inputs, including a shadowed
`Rec` binder, a differing `TypeVar`, and a type without the variable. -/
theorem c7_substitute_contract_app :
    substitute (.TypeVar "A") "B" .Number = .TypeVar "A" ∧
    expandType (.Rec "X" .Number) "Y" .Boolean =
      .Rec "X" (expandType .Number "Y" .Boolean) ∧
    expandType numStream "Z" .Number = numStream ∧
    substitute (.Func (.cons "x" (.TypeVar "T") .nil) (.TypeVar "T"))
      "T" .Number = .Func (.cons "x" .Number .nil) .Number := by
  have h := c7_substitute_contract "A" "B" "X" .Number numStream .Number .Boolean
    (by decide) (by decide) rfl
  exact ⟨h.2.2.2.1, h.2.2.2.2.2.2.1, h.2.2.2.2.2.2.2.1, h.2.2.2.2.2.2.2.2⟩

/-- C8: strict record equality in `typeEqNaive` is exact field-set
equality, independent of field order: equal field counts and every field
of the right record found by name in the left with an equal type; records
differing by an extra field are unequal in both directions. -/
theorem c8_record_equality :
    (∀ ps1 ps2 m, typeEqNaive (.Object ps1) (.Object ps2) m =
      (if plength ps1 = plength ps2 then typeEqNaiveProps ps1 ps2 m
       else .ok false)) ∧
    (∀ ps1 ps2 m, typeEqNaive (.Object ps1) (.Object ps2) m = .ok true ↔
      (plength ps1 = plength ps2 ∧ ∀ n t, MemProp n t ps2 →
        ∃ t1, findProp ps1 n = some t1 ∧ typeEqNaive t1 t m = .ok true)) ∧
    typeEqNaive (.Object (.cons "a" .Number (.cons "b" .Boolean .nil)))
      (.Object (.cons "b" .Boolean (.cons "a" .Number .nil))) [] = .ok true ∧
    typeEqNaive (.Object (.cons "a" .Number (.cons "b" .Boolean .nil)))
      (.Object (.cons "a" .Number .nil)) [] = .ok false ∧
    typeEqNaive (.Object (.cons "a" .Number .nil))
      (.Object (.cons "a" .Number (.cons "b" .Boolean .nil))) [] =
      .ok false := by
  refine ⟨fun ps1 ps2 m => rfl, ?_, rfl, rfl, rfl⟩
  intro ps1 ps2 m
  rw [show typeEqNaive (.Object ps1) (.Object ps2) m =
    (if plength ps1 = plength ps2 then typeEqNaiveProps ps1 ps2 m
     else .ok false) from rfl]
  by_cases hlen : plength ps1 = plength ps2
  · rw [if_pos hlen, typeEqNaiveProps_ok_true_iff ps2 ps1 m]
    constructor
    · intro h
      exact ⟨hlen, h⟩
    · rintro ⟨_, h⟩
      exact h
  · rw [if_neg hlen]
    constructor
    · intro h
      exact absurd h (by simp)
    · rintro ⟨h, _⟩
      exact absurd h hlen

/-- C8, witness: the order-independence characterisation applied at a
concrete pair of records. -/
theorem c8_record_equality_app :
    typeEqNaive (.Object (.cons "p" .Boolean (.cons "q" .Number .nil)))
      (.Object (.cons "q" .Number (.cons "p" .Boolean .nil))) [] =
      .ok true := by
  refine (c8_record_equality.2.1 _ _ []).mpr ⟨rfl, ?_⟩
  intro n t hm
  rcases hm with ⟨e1, e2⟩ | hm
  · subst e1; subst e2
    exact ⟨.Number, rfl, rfl⟩
  · rcases hm with ⟨e1, e2⟩ | hm
    · subst e1; subst e2
      exact ⟨.Boolean, rfl, rfl⟩
    · exact absurd hm (by intro h; exact h)

end TsTapl
